import Mathlib

/-!
Verification development for the CarePredict dashboard
(`pages/4_Data_Preprocessing.py` and `pages/5_Data_Visualization.py`).

Numeric columns of the working table are modelled as `List ℚ`; tables of raw
CSV cells as lists of rows of cells.  Pandas/NumPy library calls appearing in
the source (`Series.quantile` with its default linear interpolation,
`duplicated`/`drop_duplicates`, `groupby(...).apply`, `sort_values`) are
embedded below as executable Lean functions with the documented semantics.
-/

namespace CarePredict

/-! Section: Quantiles and IQR outlier bounds
(`4_Data_Preprocessing.py`, lines 307-314; the same expressions at 137-143)

`Series.quantile(q)` sorts the column and linearly interpolates: with sorted
values `s₀ ≤ … ≤ s_{n-1}` and `h = (n-1)·q`, `j = ⌊h⌋`, the result is
`s_j + (h - j)·(s_{j+1} - s_j)`.  Indices are clamped to the valid range;
for `q ∈ [0,1]` the clamp is only reached when the interpolation weight is
zero, so it does not change any value the source can produce. -/

def sortCol (xs : List ℚ) : List ℚ := List.insertionSort (· ≤ ·) xs

def nthS (xs : List ℚ) (k : ℕ) : ℚ := (sortCol xs).getD (min k (xs.length - 1)) 0

def interp (xs : List ℚ) (h : ℚ) : ℚ :=
  nthS xs ⌊h⌋.toNat + (h - (⌊h⌋.toNat : ℚ)) * (nthS xs (⌊h⌋.toNat + 1) - nthS xs ⌊h⌋.toNat)

def quantile (xs : List ℚ) (q : ℚ) : ℚ := interp xs (((xs.length : ℚ) - 1) * q)

def Q1 (xs : List ℚ) : ℚ := quantile xs (1/4)

def Q3 (xs : List ℚ) : ℚ := quantile xs (3/4)

def median (xs : List ℚ) : ℚ := quantile xs (1/2)

def IQR (xs : List ℚ) : ℚ := Q3 xs - Q1 xs

def lower_bound (xs : List ℚ) : ℚ := Q1 xs - (3/2) * IQR xs

def upper_bound (xs : List ℚ) : ℚ := Q3 xs + (3/2) * IQR xs

/-- The mask `(data[col] < lower_bound) | (data[col] > upper_bound)`, line 313. -/
def outliers_mask (xs : List ℚ) : List Bool :=
  xs.map (fun x => decide (x < lower_bound xs) || decide (x > upper_bound xs))

/-- The two sequential `data.loc[...] = bound` assignments of lines 329-330
("Cap outliers (Winsorization)"): first values below the lower bound are
raised to it, then values above the upper bound are lowered to it. -/
def capOutliers (xs : List ℚ) : List ℚ :=
  (xs.map (fun x => if x < lower_bound xs then lower_bound xs else x)).map
    (fun y => if y > upper_bound xs then upper_bound xs else y)

/-- The value `Series.min()` on a column. -/
def colMin : List ℚ → ℚ
  | [] => 0
  | x :: t => t.foldl min x

/-- The value `Series.max()` on a column. -/
def colMax : List ℚ → ℚ
  | [] => 0
  | x :: t => t.foldl max x

/-! Section: Duplicate records (`4_Data_Preprocessing.py`, lines 255-264)

A raw table row is the list of its cell strings.  `DataFrame.duplicated()`
(default `keep='first'`) marks each row equal to an earlier row;
`duplicated().sum()` counts the marks; `drop_duplicates()` keeps the first
occurrence of each row.  Both are embedded with an accumulator of the rows
already seen. -/

abbrev Row := List String

def dropDupFirst {α : Type} [DecidableEq α] (seen : List α) : List α → List α
  | [] => []
  | r :: rs => if r ∈ seen then dropDupFirst (r :: seen) rs else r :: dropDupFirst (r :: seen) rs

def dupCount {α : Type} [DecidableEq α] (seen : List α) : List α → ℕ
  | [] => 0
  | r :: rs => (if r ∈ seen then 1 else 0) + dupCount (r :: seen) rs

/-- The count `data.duplicated().sum()`, line 255. -/
def duplicate_count (rows : List Row) : ℕ := dupCount [] rows

/-- The call `data.drop_duplicates()`, line 261. -/
def drop_duplicates (rows : List Row) : List Row := dropDupFirst [] rows

/-! Section: Risk-rate aggregation (`5_Data_Visualization.py`, lines 579-581 and 83)

`data.groupby(condition_col)[target_col].apply(lambda x: (x == 'Abnormal').mean()
* 100).sort_values(ascending=False)`.  A row is a `(condition, test_result)`
pair of strings.  `groupby` enumerates the distinct keys (sorted ascending);
`apply` computes the per-group rate; `sort_values(ascending=False)` ranks the
rates in descending order. -/

def groupKeys (rows : List (String × String)) : List String :=
  List.insertionSort (· ≤ ·) (dropDupFirst [] (rows.map Prod.fst))

/-- The per-group aggregation `lambda x: (x == 'Abnormal').mean() * 100`. -/
def abnormalRate (rows : List (String × String)) (g : String) : ℚ :=
  ((rows.countP (fun r => decide (r.1 = g ∧ r.2 = "Abnormal")) : ℚ) /
    (rows.countP (fun r => decide (r.1 = g)) : ℚ)) * 100

/-- The descending-rate order used by `sort_values(ascending=False)`. -/
def rateGe (a b : String × ℚ) : Prop := b.2 ≤ a.2

instance : DecidableRel rateGe := fun a b => inferInstanceAs (Decidable (b.2 ≤ a.2))

instance : IsTotal (String × ℚ) rateGe := ⟨fun a b => le_total b.2 a.2⟩

instance : IsTrans (String × ℚ) rateGe := ⟨fun _ _ _ hab hbc => le_trans hbc hab⟩

def risk_analysis (rows : List (String × String)) : List (String × ℚ) :=
  List.insertionSort rateGe ((groupKeys rows).map fun g => (g, abnormalRate rows g))

/-- The metric `abnormal_pct = (data[target_col] == 'Abnormal').mean() * 100`, line 83. -/
def abnormal_pct (outcomes : List String) : ℚ :=
  ((outcomes.countP (fun v => decide (v = "Abnormal")) : ℚ) / (outcomes.length : ℚ)) * 100

/-! Section: Session state and the button-triggered actions
(`4_Data_Preprocessing.py`, lines 30, 332-340, 358-376, 460-474, 566-567)

Each page render copies the uploaded table (`data =
st.session_state['healthcare_data'].copy()`, line 30), runs at most one
button-triggered action on the copy, and finally stores the copy
(`st.session_state['healthcare_data_processed'] = data`, line 339/372 on the
action paths and line 567 at the end of every completed render).  The
uploaded slot itself is never written by this page, and every completed
render ends with the processed slot holding the render's working copy. -/

structure Session (τ : Type) where
  healthcare_data : τ
  healthcare_data_processed : τ
  deriving DecidableEq

/-- Action "Transform with log" (lines 332-337): `np.log1p` is applied only when
`(data[col] > 0).all()`; otherwise an inline error is shown (second component
`true`) and the column is left as it is.  `log1p` abstracts `np.log1p`, whose
real-number values are irrelevant to every claim about this action. -/
def logTransform (log1p : ℚ → ℚ) (xs : List ℚ) : List ℚ × Bool :=
  if xs.all fun x => decide (0 < x) then (xs.map log1p, false) else (xs, true)

/-- One render in which the "Transform with log" button was clicked: the action
runs on the working copy and line 339 stores the copy in the processed slot. -/
def logTransformRun (log1p : ℚ → ℚ) (s : Session (List ℚ)) : Session (List ℚ) :=
  { healthcare_data := s.healthcare_data
    healthcare_data_processed := (logTransform log1p s.healthcare_data).1 }

/-- A table cell: either a raw CSV string or a converted datetime value
(days since the epoch). -/
inductive Cell where
  | str (s : String)
  | int (z : ℤ)
  deriving DecidableEq

abbrev Table := List (List Cell)

def parseCell (parse : String → Option ℤ) : Cell → Option ℤ
  | .str s => parse s
  | .int z => some z

/-- Model of `pd.to_datetime` on a column (default `errors='raise'`): fails iff any
entry fails to parse.  `parse` abstracts the date parser; a cell already
converted (an `int` cell) passes through. -/
def toDatetime (parse : String → Option ℤ) (col : List Cell) : Option (List ℤ) :=
  col.mapM (parseCell parse)

def getCol (t : Table) (ci : ℕ) : List Cell := t.map fun r => r.getD ci (.str "")

def setCol (t : Table) (ci : ℕ) (vals : List ℤ) : Table :=
  List.zipWith (fun r v => r.set ci (.int v)) t vals

def appendCol (t : Table) (vals : List ℤ) : Table :=
  List.zipWith (fun r v => r ++ [Cell.int v]) t vals

/-- Action "Extract Date Features" (lines 358-376): inside the `try`, the selected
column is converted with `pd.to_datetime` (the only fallible step, line 362,
which mutates nothing when it raises) and five derived columns are appended
(lines 365-369, modelled by the feature maps `fns` standing for `dt.year`,
`dt.month`, `dt.day`, `dt.dayofweek`, `dt.quarter`); on success line 372
stores the modified copy; on the caught exception line 376 shows an inline
error and the render falls through to line 567, which stores the unmodified
copy. -/
def extractDateFeaturesRun (parse : String → Option ℤ) (fns : List (ℤ → ℤ))
    (ci : ℕ) (s : Session Table) : Session Table :=
  match toDatetime parse (getCol s.healthcare_data ci) with
  | none => { healthcare_data := s.healthcare_data
              healthcare_data_processed := s.healthcare_data }
  | some vs =>
      { healthcare_data := s.healthcare_data
        healthcare_data_processed :=
          (fns.map (fun f => vs.map f)).foldl appendCol (setCol s.healthcare_data ci vs) }

/-- Action "Calculate Length of Stay" (lines 460-474): inside the `try`, the admission
column is converted in place (line 463), then the discharge column (line 464),
then the day difference is appended as `length_of_stay` (line 467).  If the
discharge conversion raises after the admission conversion succeeded, the
caught handler shows an inline error and line 567 stores the copy with the
admission column already converted. -/
def lengthOfStayRun (parse : String → Option ℤ) (adm dis : ℕ) (s : Session Table) :
    Session Table :=
  match toDatetime parse (getCol s.healthcare_data adm) with
  | none => { healthcare_data := s.healthcare_data
              healthcare_data_processed := s.healthcare_data }
  | some admVals =>
      let data1 := setCol s.healthcare_data adm admVals
      match toDatetime parse (getCol data1 dis) with
      | none => { healthcare_data := s.healthcare_data
                  healthcare_data_processed := data1 }
      | some disVals =>
          { healthcare_data := s.healthcare_data
            healthcare_data_processed :=
              appendCol (setCol data1 dis disVals)
                (List.zipWith (fun d a => d - a) disVals admVals) }

/-- A concrete date parser for counterexamples: only `"d"` parses. -/
def parseOnlyD : String → Option ℤ := fun v => if v = "d" then some 0 else none

/-! Section: Age-group categorization (`4_Data_Preprocessing.py`, lines 479-491) -/

def categorize_age (age : ℚ) : String :=
  if age < 18 then "Child"
  else if age < 35 then "Young Adult"
  else if age < 55 then "Middle Age"
  else if age < 75 then "Senior"
  else "Elderly"

/-! Section: Generic facts about the sorted column and the interpolation -/

lemma sortCol_sorted (xs : List ℚ) : (sortCol xs).Sorted (· ≤ ·) :=
  List.sorted_insertionSort _ xs

lemma sortCol_length (xs : List ℚ) : (sortCol xs).length = xs.length :=
  List.length_insertionSort _ _

lemma nthS_nil (k : ℕ) : nthS [] k = 0 := rfl

lemma nthS_mono (xs : List ℚ) {k k' : ℕ} (hkk : k ≤ k') : nthS xs k ≤ nthS xs k' := by
  rcases xs with - | ⟨a, t⟩
  · simp [nthS_nil]
  · set l := a :: t with hl
    have hn : 0 < l.length := by simp [hl]
    have hi : min k (l.length - 1) < (sortCol l).length := by
      rw [sortCol_length]; omega
    have hi' : min k' (l.length - 1) < (sortCol l).length := by
      rw [sortCol_length]; omega
    unfold nthS
    rw [List.getD_eq_getElem _ 0 hi, List.getD_eq_getElem _ 0 hi']
    rcases Nat.lt_or_ge (min k (l.length - 1)) (min k' (l.length - 1)) with hlt | hge
    · exact (sortCol_sorted l).rel_get_of_lt hlt
    · have : min k (l.length - 1) = min k' (l.length - 1) := by omega
      simp [this]

lemma interp_mono (xs : List ℚ) {h h' : ℚ} (h0 : 0 ≤ h) (hle : h ≤ h') :
    interp xs h ≤ interp xs h' := by
  have h0' : 0 ≤ h' := h0.trans hle
  set j : ℕ := ⌊h⌋.toNat with hj
  set j' : ℕ := ⌊h'⌋.toNat with hj'
  have hjc : (j : ℚ) = (⌊h⌋ : ℚ) := by
    rw [hj]
    have := Int.toNat_of_nonneg (Int.floor_nonneg.2 h0)
    exact_mod_cast congrArg (fun z : ℤ => (z : ℚ)) this
  have hjc' : (j' : ℚ) = (⌊h'⌋ : ℚ) := by
    rw [hj']
    have := Int.toNat_of_nonneg (Int.floor_nonneg.2 h0')
    exact_mod_cast congrArg (fun z : ℤ => (z : ℚ)) this
  have hjle : (j : ℚ) ≤ h := by rw [hjc]; exact Int.floor_le h
  have hjle' : (j' : ℚ) ≤ h' := by rw [hjc']; exact Int.floor_le h'
  have hjlt : h < (j : ℚ) + 1 := by rw [hjc]; exact Int.lt_floor_add_one h
  have hjj : j ≤ j' := by
    rw [hj, hj']
    exact Int.toNat_le_toNat (Int.floor_le_floor hle)
  rcases Nat.eq_or_lt_of_le hjj with heq | hlt
  · unfold interp
    rw [← hj, ← hj', ← heq]
    have hA := nthS_mono xs (Nat.le_succ j)
    nlinarith [hA, hle]
  · have step1 : interp xs h ≤ nthS xs (j + 1) := by
      unfold interp
      rw [← hj]
      have hA := nthS_mono xs (Nat.le_succ j)
      nlinarith [hA, hjlt, hjle]
    have step2 : nthS xs (j + 1) ≤ nthS xs j' := nthS_mono xs hlt
    have step3 : nthS xs j' ≤ interp xs h' := by
      unfold interp
      rw [← hj']
      have hA := nthS_mono xs (Nat.le_succ j')
      nlinarith [hA, hjle']
    exact (step1.trans step2).trans step3

lemma quantile_mono (xs : List ℚ) {q q' : ℚ} (hq : 0 ≤ q) (hqq : q ≤ q') :
    quantile xs q ≤ quantile xs q' := by
  rcases xs with - | ⟨a, t⟩
  · unfold quantile interp
    simp [nthS_nil]
  · have hn : (1 : ℚ) ≤ ((a :: t).length : ℚ) := by exact_mod_cast Nat.succ_le_of_lt (by simp)
    exact interp_mono _ (mul_nonneg (by linarith) hq)
      (mul_le_mul_of_nonneg_left hqq (by linarith))

lemma Q1_le_Q3 (xs : List ℚ) : Q1 xs ≤ Q3 xs :=
  quantile_mono xs (by norm_num) (by norm_num)

lemma IQR_nonneg (xs : List ℚ) : 0 ≤ IQR xs :=
  sub_nonneg.2 (Q1_le_Q3 xs)

lemma lb_le_ub (xs : List ℚ) : lower_bound xs ≤ upper_bound xs := by
  have h1 := IQR_nonneg xs
  have h2 := Q1_le_Q3 xs
  unfold lower_bound upper_bound
  linarith

/-! Section: Evaluation helpers for concrete columns -/

lemma interp_natCast (xs : List ℚ) (k : ℕ) : interp xs (k : ℚ) = nthS xs k := by
  unfold interp
  rw [Int.floor_natCast, Int.toNat_natCast]
  ring

lemma quantile_eval (xs : List ℚ) (q : ℚ) (k : ℕ)
    (hk : ((xs.length : ℚ) - 1) * q = (k : ℚ)) : quantile xs q = nthS xs k := by
  rw [quantile, hk, interp_natCast]

/-! Section: concrete evaluations on the spec's example age column `[10, 200, 30, 32, 31]`. -/

lemma sort_ages : sortCol [10, 200, 30, 32, 31] = [10, 30, 31, 32, 200] := by
  norm_num [sortCol, List.insertionSort, List.orderedInsert]

lemma Q1_ages : Q1 [10, 200, 30, 32, 31] = 30 := by
  rw [Q1, quantile_eval _ _ 1 (by norm_num)]
  simp [nthS, sort_ages]

lemma Q3_ages : Q3 [10, 200, 30, 32, 31] = 32 := by
  rw [Q3, quantile_eval _ _ 3 (by norm_num)]
  simp [nthS, sort_ages]

lemma IQR_ages : IQR [10, 200, 30, 32, 31] = 2 := by
  rw [IQR, Q1_ages, Q3_ages]; norm_num

lemma lb_ages : lower_bound [10, 200, 30, 32, 31] = 27 := by
  rw [lower_bound, Q1_ages, IQR_ages]; norm_num

lemma ub_ages : upper_bound [10, 200, 30, 32, 31] = 35 := by
  rw [upper_bound, Q3_ages, IQR_ages]; norm_num

lemma mask_ages : outliers_mask [10, 200, 30, 32, 31] = [true, true, false, false, false] := by
  simp only [outliers_mask, lb_ages, ub_ages, List.map]
  norm_num

lemma cap_ages : capOutliers [10, 200, 30, 32, 31] = [27, 35, 30, 32, 31] := by
  simp only [capOutliers, lb_ages, ub_ages, List.map]
  norm_num

/-! Section: concrete evaluations on the column `[30, 31, 32, 33, 1000]`, which has an
outlier above the upper bound but no value below the lower bound. -/

lemma sort_hi : sortCol [30, 31, 32, 33, 1000] = [30, 31, 32, 33, 1000] := by
  norm_num [sortCol, List.insertionSort, List.orderedInsert]

lemma Q1_hi : Q1 [30, 31, 32, 33, 1000] = 31 := by
  rw [Q1, quantile_eval _ _ 1 (by norm_num)]
  simp [nthS, sort_hi]

lemma Q3_hi : Q3 [30, 31, 32, 33, 1000] = 33 := by
  rw [Q3, quantile_eval _ _ 3 (by norm_num)]
  simp [nthS, sort_hi]

lemma lb_hi : lower_bound [30, 31, 32, 33, 1000] = 28 := by
  rw [lower_bound, IQR, Q1_hi, Q3_hi]; norm_num

lemma ub_hi : upper_bound [30, 31, 32, 33, 1000] = 36 := by
  rw [upper_bound, IQR, Q1_hi, Q3_hi]; norm_num

lemma mask_hi : outliers_mask [30, 31, 32, 33, 1000] = [false, false, false, false, true] := by
  simp only [outliers_mask, lb_hi, ub_hi, List.map]
  norm_num

lemma cap_hi : capOutliers [30, 31, 32, 33, 1000] = [30, 31, 32, 33, 36] := by
  simp only [capOutliers, lb_hi, ub_hi, List.map]
  norm_num

/-! Section: concrete evaluations on the column `[1, 2, 3, 4, 5]` (used as a witness
input: it is non-empty and has strictly positive interquartile range). -/

lemma sort_five : sortCol [1, 2, 3, 4, 5] = [1, 2, 3, 4, 5] := by
  norm_num [sortCol, List.insertionSort, List.orderedInsert]

lemma Q1_five : Q1 [1, 2, 3, 4, 5] = 2 := by
  rw [Q1, quantile_eval _ _ 1 (by norm_num)]
  simp [nthS, sort_five]

lemma Q3_five : Q3 [1, 2, 3, 4, 5] = 4 := by
  rw [Q3, quantile_eval _ _ 3 (by norm_num)]
  simp [nthS, sort_five]

lemma IQR_five : IQR [1, 2, 3, 4, 5] = 2 := by
  rw [IQR, Q1_five, Q3_five]; norm_num

/-! Section: Facts about first-occurrence deduplication -/

lemma length_dropDupFirst {α : Type} [DecidableEq α] (l : List α) :
    ∀ seen : List α, (dropDupFirst seen l).length + dupCount seen l = l.length := by
  induction l with
  | nil => intro seen; rfl
  | cons r rs ih =>
    intro seen
    by_cases h : r ∈ seen <;> simp only [dropDupFirst, dupCount, if_pos, if_neg, h,
      ite_true, ite_false, List.length_cons] <;> have := ih (r :: seen) <;> omega

lemma mem_dropDupFirst {α : Type} [DecidableEq α] (l : List α) :
    ∀ (seen : List α) (x : α), x ∈ dropDupFirst seen l ↔ x ∈ l ∧ x ∉ seen := by
  induction l with
  | nil => intro seen x; simp [dropDupFirst]
  | cons r rs ih =>
    intro seen x
    by_cases h : r ∈ seen
    · have hr : x = r → x ∈ seen := fun e => e ▸ h
      rw [dropDupFirst, if_pos h, ih (r :: seen) x]
      simp only [List.mem_cons, not_or]
      tauto
    · have hr : x = r → x ∈ seen → False := fun e hs => h (e ▸ hs)
      rw [dropDupFirst, if_neg h]
      simp only [List.mem_cons, ih (r :: seen) x, not_or]
      tauto

lemma nodup_dropDupFirst {α : Type} [DecidableEq α] (l : List α) :
    ∀ seen : List α, (dropDupFirst seen l).Nodup := by
  induction l with
  | nil => intro seen; simp [dropDupFirst]
  | cons r rs ih =>
    intro seen
    by_cases h : r ∈ seen
    · rw [dropDupFirst, if_pos h]
      exact ih (r :: seen)
    · rw [dropDupFirst, if_neg h]
      refine List.nodup_cons.2 ⟨fun hmem => ?_, ih (r :: seen)⟩
      exact ((mem_dropDupFirst rs (r :: seen) r).1 hmem).2 (List.mem_cons_self r seen)

/-! Section: Facts about column minima and maxima -/

lemma foldl_min_le_init (l : List ℚ) : ∀ a : ℚ, l.foldl min a ≤ a := by
  induction l with
  | nil => intro a; simp
  | cons b t ih => intro a; exact le_trans (ih (min a b)) (min_le_left a b)

lemma foldl_min_le_mem (l : List ℚ) : ∀ a y : ℚ, y ∈ l → l.foldl min a ≤ y := by
  induction l with
  | nil => intro a y hy; simp at hy
  | cons b t ih =>
    intro a y hy
    rcases List.mem_cons.1 hy with rfl | hy
    · exact le_trans (foldl_min_le_init t (min a y)) (min_le_right a y)
    · exact ih (min a b) y hy

lemma foldl_min_mem (l : List ℚ) : ∀ a : ℚ, l.foldl min a = a ∨ l.foldl min a ∈ l := by
  induction l with
  | nil => intro a; exact Or.inl rfl
  | cons b t ih =>
    intro a
    rcases ih (min a b) with h | h
    · rcases min_choice a b with hc | hc
      · exact Or.inl (by rw [List.foldl_cons, h, hc])
      · exact Or.inr (by rw [List.foldl_cons, h, hc]; exact List.mem_cons_self b t)
    · exact Or.inr (List.mem_cons_of_mem b (by rw [List.foldl_cons]; exact h))

lemma colMin_eq (x : ℚ) (t : List ℚ) (c : ℚ) (hmem : c ∈ x :: t)
    (hle : ∀ y ∈ x :: t, c ≤ y) : colMin (x :: t) = c := by
  show t.foldl min x = c
  apply le_antisymm
  · rcases List.mem_cons.1 hmem with rfl | hc
    · exact foldl_min_le_init t c
    · exact foldl_min_le_mem t x c hc
  · rcases foldl_min_mem t x with h | h
    · rw [h]; exact hle x (List.mem_cons_self x t)
    · exact hle _ (List.mem_cons_of_mem x h)

lemma foldl_max_ge_init (l : List ℚ) : ∀ a : ℚ, a ≤ l.foldl max a := by
  induction l with
  | nil => intro a; simp
  | cons b t ih => intro a; exact le_trans (le_max_left a b) (ih (max a b))

lemma foldl_max_ge_mem (l : List ℚ) : ∀ a y : ℚ, y ∈ l → y ≤ l.foldl max a := by
  induction l with
  | nil => intro a y hy; simp at hy
  | cons b t ih =>
    intro a y hy
    rcases List.mem_cons.1 hy with rfl | hy
    · exact le_trans (le_max_right a y) (foldl_max_ge_init t (max a y))
    · exact ih (max a b) y hy

lemma foldl_max_mem (l : List ℚ) : ∀ a : ℚ, l.foldl max a = a ∨ l.foldl max a ∈ l := by
  induction l with
  | nil => intro a; exact Or.inl rfl
  | cons b t ih =>
    intro a
    rcases ih (max a b) with h | h
    · rcases max_choice a b with hc | hc
      · exact Or.inl (by rw [List.foldl_cons, h, hc])
      · exact Or.inr (by rw [List.foldl_cons, h, hc]; exact List.mem_cons_self b t)
    · exact Or.inr (List.mem_cons_of_mem b (by rw [List.foldl_cons]; exact h))

lemma colMax_eq (x : ℚ) (t : List ℚ) (c : ℚ) (hmem : c ∈ x :: t)
    (hge : ∀ y ∈ x :: t, y ≤ c) : colMax (x :: t) = c := by
  show t.foldl max x = c
  apply le_antisymm
  · rcases foldl_max_mem t x with h | h
    · rw [h]; exact hge x (List.mem_cons_self x t)
    · exact hge _ (List.mem_cons_of_mem x h)
  · rcases List.mem_cons.1 hmem with rfl | hc
    · exact foldl_max_ge_init t c
    · exact foldl_max_ge_mem t x c hc

/-! Section: Counting facts for the two-group partition -/

lemma countP_two_groups (g1 g2 : String) (hne : g1 ≠ g2) :
    ∀ rows : List (String × String), (∀ r ∈ rows, r.1 = g1 ∨ r.1 = g2) →
      rows.countP (fun r => decide (r.1 = g1)) + rows.countP (fun r => decide (r.1 = g2)) =
        rows.length ∧
      rows.countP (fun r => decide (r.1 = g1 ∧ r.2 = "Abnormal")) +
        rows.countP (fun r => decide (r.1 = g2 ∧ r.2 = "Abnormal")) =
        rows.countP (fun r => decide (r.2 = "Abnormal")) := by
  intro rows
  induction rows with
  | nil => intro hp; simp
  | cons r rs ih =>
    intro hp
    obtain ⟨ih1, ih2⟩ := ih fun x hx => hp x (List.mem_cons_of_mem _ hx)
    have hr := hp r (List.mem_cons_self r rs)
    by_cases hab : r.2 = "Abnormal" <;> rcases hr with h | h <;>
      have hno : r.1 ≠ (if r.1 = g1 then g2 else g1) := by
        split <;> simp_all
    all_goals simp only [List.countP_cons, List.length_cons]
    all_goals simp only [h, hab, decide_eq_true_eq, if_pos, if_neg, decide_True, decide_False]
    all_goals simp_all
    all_goals omega

/-! Section: Pointwise form of the winsorization -/

lemma capOutliers_eq_clamp (xs : List ℚ) :
    capOutliers xs = xs.map fun x =>
      if x < lower_bound xs then lower_bound xs
      else if x > upper_bound xs then upper_bound xs else x := by
  have hlu := lb_le_ub xs
  rw [capOutliers, List.map_map]
  refine List.map_congr_left fun x _ => ?_
  by_cases h1 : x < lower_bound xs
  · simp only [Function.comp_apply, if_pos h1, if_neg (not_lt.2 hlu)]
  · simp only [Function.comp_apply, if_neg h1]

lemma capOutliers_length (xs : List ℚ) : (capOutliers xs).length = xs.length := by
  simp [capOutliers]

lemma capOutliers_mem_bounds (xs : List ℚ) :
    ∀ y ∈ capOutliers xs, lower_bound xs ≤ y ∧ y ≤ upper_bound xs := by
  have hlu := lb_le_ub xs
  intro y hy
  rw [capOutliers_eq_clamp] at hy
  obtain ⟨x, hx, rfl⟩ := List.mem_map.1 hy
  split_ifs with h1 h2 <;> constructor <;> linarith

/-! Section: Claims -/

/-- Claim C1: For every numeric column, the outlier computation sets `Q1` to the
0.25 quantile, `Q3` to the 0.75 quantile, `IQR` to `Q3 - Q1`, the lower bound
to `Q1 - 1.5·IQR` and the upper bound to `Q3 + 1.5·IQR`, and produces a
boolean mask that is true exactly for the rows whose value is strictly below
the lower bound or strictly above the upper bound. -/
theorem outlier_bounds_and_mask (xs : List ℚ) (i : ℕ) (hi : i < xs.length) :
    Q1 xs = quantile xs (1/4) ∧ Q3 xs = quantile xs (3/4) ∧
    IQR xs = Q3 xs - Q1 xs ∧ lower_bound xs = Q1 xs - (3/2) * IQR xs ∧
    upper_bound xs = Q3 xs + (3/2) * IQR xs ∧
    ((outliers_mask xs).getD i false = true ↔
      xs.getD i 0 < lower_bound xs ∨ xs.getD i 0 > upper_bound xs) := by
  refine ⟨rfl, rfl, rfl, rfl, rfl, ?_⟩
  have hmi : i < (outliers_mask xs).length := by simpa [outliers_mask] using hi
  rw [List.getD_eq_getElem _ _ hmi, List.getD_eq_getElem _ _ hi]
  simp [outliers_mask]

/-- Witness for C1 at the column `[5]` and row `0`. -/
theorem outlier_bounds_and_mask_witness :
    0 < ([5] : List ℚ).length ∧
    (Q1 [5] = quantile [5] (1/4) ∧ Q3 [5] = quantile [5] (3/4) ∧
      IQR [5] = Q3 [5] - Q1 [5] ∧ lower_bound [5] = Q1 [5] - (3/2) * IQR [5] ∧
      upper_bound [5] = Q3 [5] + (3/2) * IQR [5] ∧
      ((outliers_mask [5]).getD 0 false = true ↔
        ([5] : List ℚ).getD 0 0 < lower_bound [5] ∨
          ([5] : List ℚ).getD 0 0 > upper_bound [5])) :=
  ⟨by decide, outlier_bounds_and_mask [5] 0 (by decide)⟩

/-- Claim C5: For every table, the duplicate-removal action reduces the row
count by exactly the number of duplicate rows counted before the operation
(rows identical to an earlier row): `len(result) = len(input) - duplicate_count`. -/
theorem drop_duplicates_length (rows : List Row) :
    (drop_duplicates rows).length = rows.length - duplicate_count rows := by
  have h := length_dropDupFirst rows ([] : List Row)
  unfold drop_duplicates duplicate_count
  omega

/-- Claim C6: On the concrete age column `[10, 200, 30, 32, 31]`:
`Q1 = 30`, `Q3 = 32`, `IQR = 2`, bounds `[27, 35]`; exactly the values `10`
and `200` are flagged as outliers; clipping maps `10 ↦ 27` and `200 ↦ 35`
and leaves `30`, `32`, `31` unchanged. -/
theorem ages_example_eval :
    Q1 [10, 200, 30, 32, 31] = 30 ∧ Q3 [10, 200, 30, 32, 31] = 32 ∧
    IQR [10, 200, 30, 32, 31] = 2 ∧ lower_bound [10, 200, 30, 32, 31] = 27 ∧
    upper_bound [10, 200, 30, 32, 31] = 35 ∧
    outliers_mask [10, 200, 30, 32, 31] = [true, true, false, false, false] ∧
    capOutliers [10, 200, 30, 32, 31] = [27, 35, 30, 32, 31] :=
  ⟨Q1_ages, Q3_ages, IQR_ages, lb_ages, ub_ages, mask_ages, cap_ages⟩

/-- Claim C10: The age-group categorization is total on numeric ages and assigns
exactly one of five labels with boundaries: `Child` iff `age < 18`,
`Young Adult` iff `18 ≤ age < 35`, `Middle Age` iff `35 ≤ age < 55`,
`Senior` iff `55 ≤ age < 75`, `Elderly` iff `age ≥ 75`. -/
theorem categorize_age_boundaries (a : ℚ) :
    categorize_age a ∈ ["Child", "Young Adult", "Middle Age", "Senior", "Elderly"] ∧
    (categorize_age a = "Child" ↔ a < 18) ∧
    (categorize_age a = "Young Adult" ↔ 18 ≤ a ∧ a < 35) ∧
    (categorize_age a = "Middle Age" ↔ 35 ≤ a ∧ a < 55) ∧
    (categorize_age a = "Senior" ↔ 55 ≤ a ∧ a < 75) ∧
    (categorize_age a = "Elderly" ↔ 75 ≤ a) := by
  unfold categorize_age
  split_ifs with h1 h2 h3 h4
  · exact ⟨by simp, iff_of_true rfl h1,
      iff_of_false (by decide) (fun h => absurd h1 (not_lt.2 h.1)),
      iff_of_false (by decide) (fun h => absurd h1 (not_lt.2 (by linarith [h.1]))),
      iff_of_false (by decide) (fun h => absurd h1 (not_lt.2 (by linarith [h.1]))),
      iff_of_false (by decide) (fun h => absurd h1 (not_lt.2 (by linarith [h])))⟩
  · exact ⟨by simp, iff_of_false (by decide) h1,
      iff_of_true rfl ⟨not_lt.1 h1, h2⟩,
      iff_of_false (by decide) (fun h => absurd h2 (not_lt.2 h.1)),
      iff_of_false (by decide) (fun h => absurd h2 (not_lt.2 (by linarith [h.1]))),
      iff_of_false (by decide) (fun h => absurd h2 (not_lt.2 (by linarith [h])))⟩
  · exact ⟨by simp, iff_of_false (by decide) (fun h => h1 (by linarith)),
      iff_of_false (by decide) (fun h => absurd h.2 (not_lt.2 (not_lt.1 h2))),
      iff_of_true rfl ⟨not_lt.1 h2, h3⟩,
      iff_of_false (by decide) (fun h => absurd h3 (not_lt.2 h.1)),
      iff_of_false (by decide) (fun h => absurd h3 (not_lt.2 (by linarith [h])))⟩
  · exact ⟨by simp, iff_of_false (by decide) (fun h => h1 (by linarith)),
      iff_of_false (by decide) (fun h => absurd h.2 (not_lt.2 (by linarith [not_lt.1 h2]))),
      iff_of_false (by decide) (fun h => absurd h.2 (not_lt.2 (not_lt.1 h3))),
      iff_of_true rfl ⟨not_lt.1 h3, h4⟩,
      iff_of_false (by decide) (fun h => absurd h4 (not_lt.2 h))⟩
  · exact ⟨by simp, iff_of_false (by decide) (fun h => h1 (by linarith)),
      iff_of_false (by decide) (fun h => absurd h.2 (not_lt.2 (by linarith [not_lt.1 h2]))),
      iff_of_false (by decide) (fun h => absurd h.2 (not_lt.2 (by linarith [not_lt.1 h3]))),
      iff_of_false (by decide) (fun h => absurd h.2 (not_lt.2 (not_lt.1 h4))),
      iff_of_true rfl (not_lt.1 h4)⟩

/-- Claim C3: For every numeric column that contains at least one value `≤ 0`,
the log-transform outlier treatment is rejected: an error is reported (the
action returns the error flag) and the column and the stored table are exactly
as they were before the action; the transform is applied only when every
value in the column is strictly positive. -/
theorem log_transform_rejects_nonpositive (f : ℚ → ℚ) (s : Session (List ℚ))
    (hsteady : s.healthcare_data_processed = s.healthcare_data)
    (hnp : ∃ x ∈ s.healthcare_data, x ≤ 0) :
    logTransform f s.healthcare_data = (s.healthcare_data, true) ∧
    logTransformRun f s = s ∧
    ∀ ys : List ℚ, ((logTransform f ys).2 = false ↔ ∀ y ∈ ys, 0 < y) := by
  have hall : (s.healthcare_data.all fun x => decide (0 < x)) = false := by
    rcases hnp with ⟨x, hx, hx0⟩
    exact List.all_eq_false.2 ⟨x, hx, by simpa using not_lt.2 hx0⟩
  have hfirst : logTransform f s.healthcare_data = (s.healthcare_data, true) := by
    rw [logTransform, if_neg (by simp [hall])]
  refine ⟨hfirst, ?_, ?_⟩
  · cases s with
    | mk d p =>
      simp only at hsteady hfirst ⊢
      rw [logTransformRun, hfirst, hsteady]
  · intro ys
    by_cases hys : (ys.all fun y => decide (0 < y)) = true
    · rw [logTransform, if_pos hys]
      simp only [true_iff, eq_self_iff_true]
      intro y hy
      simpa using List.all_eq_true.1 hys y hy
    · rw [logTransform, if_neg hys]
      simp only [Bool.true_eq_false, false_iff]
      intro hpos
      exact hys (List.all_eq_true.2 fun y hy => by simpa using hpos y hy)

/-- Witness for C3: the column `[-1]` with a steady session state. -/
theorem log_transform_rejects_nonpositive_witness :
    (Session.mk [(-1 : ℚ)] [(-1 : ℚ)]).healthcare_data_processed =
      (Session.mk [(-1 : ℚ)] [(-1 : ℚ)]).healthcare_data ∧
    (∃ x ∈ [(-1 : ℚ)], x ≤ 0) ∧
    logTransformRun (fun x => x) (Session.mk [(-1 : ℚ)] [(-1 : ℚ)]) =
      Session.mk [(-1 : ℚ)] [(-1 : ℚ)] :=
  ⟨rfl, ⟨-1, by simp, by decide⟩,
    (log_transform_rejects_nonpositive (fun x => x) (Session.mk [(-1 : ℚ)] [(-1 : ℚ)])
      rfl ⟨-1, by simp, by decide⟩).2.1⟩

/-- Claim C7: For every non-empty numeric column with strictly positive
interquartile range, `lower_bound ≤ Q1 ≤ median ≤ Q3 ≤ upper_bound`. -/
theorem quantile_order (xs : List ℚ) (_hne : xs ≠ []) (hIQR : 0 < IQR xs) :
    lower_bound xs ≤ Q1 xs ∧ Q1 xs ≤ median xs ∧
    median xs ≤ Q3 xs ∧ Q3 xs ≤ upper_bound xs := by
  have h1 : Q1 xs ≤ median xs := quantile_mono xs (by norm_num) (by norm_num)
  have h2 : median xs ≤ Q3 xs := quantile_mono xs (by norm_num) (by norm_num)
  have h3 := IQR_nonneg xs
  refine ⟨?_, h1, h2, ?_⟩
  · unfold lower_bound
    linarith
  · unfold upper_bound
    linarith

/-- Witness for C7 at the column `[1, 2, 3, 4, 5]`, whose IQR is `2`. -/
theorem quantile_order_witness :
    ([1, 2, 3, 4, 5] : List ℚ) ≠ [] ∧ 0 < IQR [1, 2, 3, 4, 5] ∧
    (lower_bound [1, 2, 3, 4, 5] ≤ Q1 [1, 2, 3, 4, 5] ∧
      Q1 [1, 2, 3, 4, 5] ≤ median [1, 2, 3, 4, 5] ∧
      median [1, 2, 3, 4, 5] ≤ Q3 [1, 2, 3, 4, 5] ∧
      Q3 [1, 2, 3, 4, 5] ≤ upper_bound [1, 2, 3, 4, 5]) :=
  ⟨by decide, lt_of_lt_of_eq (by decide : (0 : ℚ) < 2) IQR_five.symm,
    quantile_order [1, 2, 3, 4, 5] (by decide)
      (lt_of_lt_of_eq (by decide : (0 : ℚ) < 2) IQR_five.symm)⟩

/-- Claim C4, counterexample: The column `[30, 31, 32, 33, 1000]` contains an
outlier (the mask is not all-false), yet after clipping the minimum is `30`,
not the lower bound `28`: the claim "the minimum equals the lower bound"
fails whenever no value lies below the lower bound. -/
theorem capOutliers_min_counterexample :
    (outliers_mask [30, 31, 32, 33, 1000]).any (fun b => b) = true ∧
    colMin (capOutliers [30, 31, 32, 33, 1000]) ≠ lower_bound [30, 31, 32, 33, 1000] := by
  constructor
  · rw [mask_hi]
    rfl
  · rw [cap_hi, lb_hi]
    show colMin [30, 31, 32, 33, 36] ≠ 28
    have : colMin [30, 31, 32, 33, 36] = 30 := by
      apply colMin_eq
      · exact List.mem_cons_self _ _
      · intro y hy
        simp only [List.mem_cons, List.not_mem_nil, or_false] at hy
        rcases hy with rfl | rfl | rfl | rfl | rfl <;> norm_num
    rw [this]
    norm_num

/-- Claim C4, amended: For every non-empty numeric column, clipping
(winsorization) to the IQR bounds yields a column in which every value lies
within the bounds; the minimum equals the lower bound whenever some value was
below it, the maximum equals the upper bound whenever some value was above
it, and every value that was within the bounds before clipping is
unchanged. -/
theorem capOutliers_bounds_spec (xs : List ℚ) (hne : xs ≠ []) :
    (∀ y ∈ capOutliers xs, lower_bound xs ≤ y ∧ y ≤ upper_bound xs) ∧
    ((∃ x ∈ xs, x < lower_bound xs) → colMin (capOutliers xs) = lower_bound xs) ∧
    ((∃ x ∈ xs, upper_bound xs < x) → colMax (capOutliers xs) = upper_bound xs) ∧
    (∀ i : ℕ, i < xs.length →
      lower_bound xs ≤ xs.getD i 0 → xs.getD i 0 ≤ upper_bound xs →
      (capOutliers xs).getD i 0 = xs.getD i 0) := by
  have hlu := lb_le_ub xs
  have hall := capOutliers_mem_bounds xs
  refine ⟨hall, ?_, ?_, ?_⟩
  · rintro ⟨x, hx, hxlb⟩
    have hmemlb : lower_bound xs ∈ capOutliers xs := by
      rw [capOutliers_eq_clamp]
      exact List.mem_map.2 ⟨x, hx, by rw [if_pos hxlb]⟩
    rcases hcap : capOutliers xs with - | ⟨c0, ct⟩
    · exfalso
      apply hne
      have hlen := capOutliers_length xs
      rw [hcap] at hlen
      exact List.length_eq_zero.1 hlen.symm
    · rw [hcap] at hmemlb
      exact colMin_eq c0 ct _ hmemlb fun y hy => (hall y (hcap ▸ hy)).1
  · rintro ⟨x, hx, hxub⟩
    have hmemub : upper_bound xs ∈ capOutliers xs := by
      rw [capOutliers_eq_clamp]
      refine List.mem_map.2 ⟨x, hx, ?_⟩
      rw [if_neg (not_lt.2 (hlu.trans hxub.le)), if_pos hxub]
    rcases hcap : capOutliers xs with - | ⟨c0, ct⟩
    · exfalso
      apply hne
      have hlen := capOutliers_length xs
      rw [hcap] at hlen
      exact List.length_eq_zero.1 hlen.symm
    · rw [hcap] at hmemub
      exact colMax_eq c0 ct _ hmemub fun y hy => (hall y (hcap ▸ hy)).2
  · intro i hil hlb hub
    have hic : i < (capOutliers xs).length := by rw [capOutliers_length]; exact hil
    rw [List.getD_eq_getElem _ _ hic, List.getD_eq_getElem _ _ hil] at *
    simp only [capOutliers_eq_clamp, List.getElem_map]
    rw [if_neg (not_lt.2 hlb), if_neg (not_lt.2 hub)]

/-- Witness for C4 (amended) at the column `[10, 200, 30, 32, 31]`. -/
theorem capOutliers_bounds_spec_witness :
    ([10, 200, 30, 32, 31] : List ℚ) ≠ [] ∧
    ((∀ y ∈ capOutliers [10, 200, 30, 32, 31],
        lower_bound [10, 200, 30, 32, 31] ≤ y ∧ y ≤ upper_bound [10, 200, 30, 32, 31]) ∧
      ((∃ x ∈ ([10, 200, 30, 32, 31] : List ℚ), x < lower_bound [10, 200, 30, 32, 31]) →
        colMin (capOutliers [10, 200, 30, 32, 31]) = lower_bound [10, 200, 30, 32, 31]) ∧
      ((∃ x ∈ ([10, 200, 30, 32, 31] : List ℚ), upper_bound [10, 200, 30, 32, 31] < x) →
        colMax (capOutliers [10, 200, 30, 32, 31]) = upper_bound [10, 200, 30, 32, 31]) ∧
      (∀ i : ℕ, i < ([10, 200, 30, 32, 31] : List ℚ).length →
        lower_bound [10, 200, 30, 32, 31] ≤ ([10, 200, 30, 32, 31] : List ℚ).getD i 0 →
        ([10, 200, 30, 32, 31] : List ℚ).getD i 0 ≤ upper_bound [10, 200, 30, 32, 31] →
        (capOutliers [10, 200, 30, 32, 31]).getD i 0 =
          ([10, 200, 30, 32, 31] : List ℚ).getD i 0)) :=
  ⟨by decide, capOutliers_bounds_spec [10, 200, 30, 32, 31] (by decide)⟩

/-- Claim C2: For every table with a grouping column and a categorical outcome
column, the risk-rate aggregation returns, for each group occurring in the
table, exactly one entry whose rate is the proportion of that group's rows
whose outcome equals the literal `"Abnormal"` (as a percentage), and the
returned per-group rates are ranked in descending order of rate. -/
theorem risk_analysis_spec (rows : List (String × String)) (g : String)
    (hg : g ∈ rows.map Prod.fst) :
    ((risk_analysis rows).map Prod.fst).count g = 1 ∧
    (g, abnormalRate rows g) ∈ risk_analysis rows ∧
    abnormalRate rows g =
      ((rows.countP (fun r => decide (r.1 = g ∧ r.2 = "Abnormal")) : ℚ) /
        (rows.countP (fun r => decide (r.1 = g)) : ℚ)) * 100 ∧
    (risk_analysis rows).Sorted rateGe := by
  have hperm : List.Perm (risk_analysis rows)
      ((groupKeys rows).map (fun k => (k, abnormalRate rows k))) :=
    List.perm_insertionSort _ _
  have hkeysperm : List.Perm (groupKeys rows) (dropDupFirst [] (rows.map Prod.fst)) :=
    List.perm_insertionSort _ _
  have hnodup : (groupKeys rows).Nodup :=
    hkeysperm.nodup_iff.2 (nodup_dropDupFirst _ [])
  have hgk : g ∈ groupKeys rows := by
    rw [hkeysperm.mem_iff, mem_dropDupFirst]
    exact ⟨hg, by simp⟩
  refine ⟨?_, ?_, rfl, List.sorted_insertionSort _ _⟩
  · have hmapperm : List.Perm ((risk_analysis rows).map Prod.fst) (groupKeys rows) := by
      have hm := hperm.map Prod.fst
      rw [List.map_map] at hm
      have hid : (Prod.fst ∘ fun k : String => (k, abnormalRate rows k)) = id := rfl
      rw [hid, List.map_id] at hm
      exact hm
    rw [hmapperm.count_eq]
    exact List.count_eq_one_of_mem hnodup hgk
  · rw [hperm.mem_iff]
    exact List.mem_map_of_mem _ hgk

/-- Witness for C2 at the table `[("a", "Abnormal"), ("b", "Normal"),
("a", "Normal")]` and the group `"a"`. -/
theorem risk_analysis_spec_witness :
    "a" ∈ [("a", "Abnormal"), ("b", "Normal"), ("a", "Normal")].map Prod.fst ∧
    (((risk_analysis [("a", "Abnormal"), ("b", "Normal"), ("a", "Normal")]).map
        Prod.fst).count "a" = 1 ∧
      ("a", abnormalRate [("a", "Abnormal"), ("b", "Normal"), ("a", "Normal")] "a") ∈
        risk_analysis [("a", "Abnormal"), ("b", "Normal"), ("a", "Normal")] ∧
      abnormalRate [("a", "Abnormal"), ("b", "Normal"), ("a", "Normal")] "a" =
        (([("a", "Abnormal"), ("b", "Normal"), ("a", "Normal")].countP
            (fun r => decide (r.1 = "a" ∧ r.2 = "Abnormal")) : ℚ) /
          ([("a", "Abnormal"), ("b", "Normal"), ("a", "Normal")].countP
            (fun r => decide (r.1 = "a")) : ℚ)) * 100 ∧
      (risk_analysis [("a", "Abnormal"), ("b", "Normal"), ("a", "Normal")]).Sorted rateGe) :=
  ⟨by decide, risk_analysis_spec [("a", "Abnormal"), ("b", "Normal"), ("a", "Normal")]
    "a" (by decide)⟩

/-- Claim C8: For every table whose grouping column has exactly the two groups
`g1` and `g2` (both inhabited) and a categorical outcome column, the per-group
abnormal rates produced by the risk-rate aggregation, weighted by each group's
share of the rows and summed, equal the global abnormal rate computed
directly over the whole outcome column. -/
theorem weighted_rate_consistency (rows : List (String × String)) (g1 g2 : String)
    (hne : g1 ≠ g2)
    (hpart : ∀ r ∈ rows, r.1 = g1 ∨ r.1 = g2)
    (h1 : 0 < rows.countP (fun r => decide (r.1 = g1)))
    (h2 : 0 < rows.countP (fun r => decide (r.1 = g2))) :
    ((rows.countP (fun r => decide (r.1 = g1)) : ℚ) / (rows.length : ℚ)) *
        abnormalRate rows g1 +
      ((rows.countP (fun r => decide (r.1 = g2)) : ℚ) / (rows.length : ℚ)) *
        abnormalRate rows g2 =
      abnormal_pct (rows.map Prod.snd) := by
  obtain ⟨hcount, habn⟩ := countP_two_groups g1 g2 hne rows hpart
  unfold abnormalRate abnormal_pct
  rw [List.countP_map, List.length_map]
  have hcomp : rows.countP ((fun v => decide (v = "Abnormal")) ∘ Prod.snd) =
      rows.countP (fun r => decide (r.2 = "Abnormal")) := rfl
  rw [hcomp]
  have hNc : ((rows.length : ℚ)) =
      (rows.countP (fun r => decide (r.1 = g1)) : ℚ) +
        (rows.countP (fun r => decide (r.1 = g2)) : ℚ) := by
    exact_mod_cast hcount.symm
  have haTc : ((rows.countP (fun r => decide (r.2 = "Abnormal")) : ℚ)) =
      (rows.countP (fun r => decide (r.1 = g1 ∧ r.2 = "Abnormal")) : ℚ) +
        (rows.countP (fun r => decide (r.1 = g2 ∧ r.2 = "Abnormal")) : ℚ) := by
    exact_mod_cast habn.symm
  have c1 : (rows.countP (fun r => decide (r.1 = g1)) : ℚ) ≠ 0 := by
    exact ne_of_gt (by exact_mod_cast h1)
  have c2 : (rows.countP (fun r => decide (r.1 = g2)) : ℚ) ≠ 0 := by
    exact ne_of_gt (by exact_mod_cast h2)
  rw [hNc, haTc]
  have c12 : (rows.countP (fun r => decide (r.1 = g1)) : ℚ) +
      (rows.countP (fun r => decide (r.1 = g2)) : ℚ) ≠ 0 := by
    positivity
  field_simp
  ring

/-- Witness for C8 at the table `[("a", "Abnormal"), ("b", "Normal")]`. -/
theorem weighted_rate_consistency_witness :
    ("a" : String) ≠ "b" ∧
    (∀ r ∈ [("a", "Abnormal"), ("b", "Normal")], r.1 = "a" ∨ r.1 = "b") ∧
    0 < [("a", "Abnormal"), ("b", "Normal")].countP (fun r => decide (r.1 = "a")) ∧
    0 < [("a", "Abnormal"), ("b", "Normal")].countP (fun r => decide (r.1 = "b")) ∧
    (([("a", "Abnormal"), ("b", "Normal")].countP (fun r => decide (r.1 = "a")) : ℚ) /
          ([("a", "Abnormal"), ("b", "Normal")].length : ℚ)) *
        abnormalRate [("a", "Abnormal"), ("b", "Normal")] "a" +
      (([("a", "Abnormal"), ("b", "Normal")].countP (fun r => decide (r.1 = "b")) : ℚ) /
          ([("a", "Abnormal"), ("b", "Normal")].length : ℚ)) *
        abnormalRate [("a", "Abnormal"), ("b", "Normal")] "b" =
      abnormal_pct ([("a", "Abnormal"), ("b", "Normal")].map Prod.snd) :=
  ⟨by decide, by decide, by decide, by decide,
    weighted_rate_consistency [("a", "Abnormal"), ("b", "Normal")] "a" "b"
      (by decide) (by decide) (by decide) (by decide)⟩

/-- Claim C9, counterexample: In the "Calculate Length of Stay" action on the
one-row table `[["d", "x"]]` (admission column `0`, discharge column `1`)
with a parser that accepts only `"d"`: the discharge conversion fails — the
caught exception branch is taken, witnessed by the first conjunct — yet the
stored processed table is no longer what it was before the action (the
admission cell has already been converted in place), refuting the claim that
a failing action leaves the stored tables exactly as they were. -/
theorem length_of_stay_failure_mutates :
    toDatetime parseOnlyD
        (getCol (setCol [[Cell.str "d", Cell.str "x"]] 0 [0]) 1) = none ∧
    (lengthOfStayRun parseOnlyD 0 1
        (Session.mk [[Cell.str "d", Cell.str "x"]]
          [[Cell.str "d", Cell.str "x"]])).healthcare_data_processed ≠
      [[Cell.str "d", Cell.str "x"]] := by
  constructor
  · rfl
  · intro h
    have : (lengthOfStayRun parseOnlyD 0 1
        (Session.mk [[Cell.str "d", Cell.str "x"]]
          [[Cell.str "d", Cell.str "x"]])).healthcare_data_processed =
        [[Cell.int 0, Cell.str "x"]] := rfl
    rw [this] at h
    exact absurd h (by decide)

/-- Claim C9, amended: For a transform action whose caught failure occurs
before any mutation of the working copy — as in "Extract Date Features",
whose only fallible step is the initial conversion — a failing run leaves the
session state exactly as it was (given the steady-state invariant that every
completed render re-established the processed slot from the working copy);
and no action ever writes the uploaded slot. -/
theorem extract_date_features_failure_preserves (parse : String → Option ℤ)
    (fns : List (ℤ → ℤ)) (ci : ℕ) (s : Session Table)
    (hsteady : s.healthcare_data_processed = s.healthcare_data)
    (hfail : toDatetime parse (getCol s.healthcare_data ci) = none) :
    extractDateFeaturesRun parse fns ci s = s ∧
    ∀ adm dis : ℕ,
      (lengthOfStayRun parse adm dis s).healthcare_data = s.healthcare_data := by
  constructor
  · cases s with
    | mk d p =>
      simp only at hsteady hfail
      subst hsteady
      unfold extractDateFeaturesRun
      rw [hfail]
  · intro adm dis
    unfold lengthOfStayRun
    cases h1 : toDatetime parse (getCol s.healthcare_data adm) with
    | none => rfl
    | some admVals =>
      simp only
      cases h2 : toDatetime parse (getCol (setCol s.healthcare_data adm admVals) dis) with
      | none => rfl
      | some disVals => rfl

/-- Witness for C9 (amended): a parser that rejects everything on a one-cell
table, with a steady session state. -/
theorem extract_date_features_failure_preserves_witness :
    (Session.mk ([[Cell.str "x"]] : Table) [[Cell.str "x"]]).healthcare_data_processed =
      (Session.mk ([[Cell.str "x"]] : Table) [[Cell.str "x"]]).healthcare_data ∧
    toDatetime (fun _ => none)
      (getCol (Session.mk ([[Cell.str "x"]] : Table) [[Cell.str "x"]]).healthcare_data 0) =
      none ∧
    (extractDateFeaturesRun (fun _ => none) [] 0
        (Session.mk ([[Cell.str "x"]] : Table) [[Cell.str "x"]]) =
      Session.mk ([[Cell.str "x"]] : Table) [[Cell.str "x"]] ∧
    ∀ adm dis : ℕ,
      (lengthOfStayRun (fun _ => none) adm dis
          (Session.mk ([[Cell.str "x"]] : Table) [[Cell.str "x"]])).healthcare_data =
        (Session.mk ([[Cell.str "x"]] : Table) [[Cell.str "x"]]).healthcare_data) :=
  ⟨rfl, rfl,
    extract_date_features_failure_preserves (fun _ => none) [] 0
      (Session.mk [[Cell.str "x"]] [[Cell.str "x"]]) rfl rfl⟩

end CarePredict
